import Mathlib

/-!
Verification of the expression front end of `main.go` (tokenizer, recursive-descent
parser with precedence climbing, validation pass, and complex-number evaluator).

The Go source is shallowly embedded:

* `complex128` values are modelled by `CV`: finite values are pairs of exact
  rationals (`QC`), since every computation appearing in the claims is exactly
  representable in binary floating point; the IEEE infinities are collapsed into
  the single value `CV.inf` (mirroring `cmplx.IsInf`, which holds whenever either
  component is infinite) and invalid results into `CV.nan`.  Division by an exact
  zero with a nonzero numerator yields `CV.inf`, never an error, matching the
  non-trapping Go semantics.
* `QC` is a self-contained rational type (normalized integer pairs with a
  fuel-based Euclidean gcd) so that every arithmetic operation reduces inside the
  Lean kernel.
* The transcendental library functions (`cmplx.Pow`, `cmplx.Sin`, ...) live in the
  Go standard library, outside this repository; evaluation is parameterized over
  an arbitrary interpretation `FnImpl` of those six functions, because no claim
  depends on their numeric values.
* The lexer is Go's `text/scanner` with `ScanIdents | ScanInts | ScanFloats`
  (standard library, not repository code); it is modelled for ASCII input:
  identifiers, decimal integer/float literals with optional fraction and
  exponent, whitespace skipping, and all other characters returned verbatim as
  single-character tokens.  Go's hexadecimal/binary/octal literal forms and
  underscore separators are not modelled; no claim involves them.
* Parser failures (a recovered `lexPanic` in the source) are ordinary
  `Except.error` values; the fuel argument threaded through the mutually
  recursive parser is a termination artifact only (each nested call consumes one
  unit, and `Parse` supplies far more fuel than the recursion depth can reach for
  its token list).
-/

/-- Fuel-based Euclidean gcd (`fgcd fuel a b` = gcd a b once `fuel > a`),
written this way so that it reduces inside the kernel. -/
def fgcd : ℕ → ℕ → ℕ → ℕ
| 0, _, b => b
| f+1, a, b => if a = 0 then b else fgcd f (b % a) a

/-- Exact rational numbers as normalized numerator/denominator pairs.
All values produced by the operations below are in lowest terms with a
positive denominator, so structural equality is true rational equality. -/
structure QC where
  num : ℤ
  den : ℕ
deriving DecidableEq

/-- Build the normalized rational n / d (the degenerate input d = 0 is mapped
to the unused sentinel pair 0/0; no reachable computation divides by an exact
zero denominator without guarding first). -/
def qnorm (n d : ℤ) : QC :=
  if d = 0 then ⟨0, 0⟩
  else
    let s : ℤ := if d < 0 then -1 else 1
    let n1 := s * n
    let d1 := (s * d).toNat
    let g := fgcd (n1.natAbs + 1) n1.natAbs d1
    ⟨n1 / g, d1 / g⟩

/-- The integer n as a rational. -/
def QC.ofInt (n : ℤ) : QC := ⟨n, 1⟩

/-- The natural number n as a rational. -/
def QC.ofNat (n : ℕ) : QC := ⟨Int.ofNat n, 1⟩

/-- Rational negation. -/
def QC.neg (x : QC) : QC := ⟨-x.num, x.den⟩

/-- Rational addition. -/
def QC.add (x y : QC) : QC := qnorm (x.num * y.den + y.num * x.den) (x.den * y.den)

/-- Rational subtraction. -/
def QC.sub (x y : QC) : QC := QC.add x (QC.neg y)

/-- Rational multiplication. -/
def QC.mul (x y : QC) : QC := qnorm (x.num * y.num) (x.den * y.den)

/-- Rational division (the caller guards against zero divisors). -/
def QC.div (x y : QC) : QC := qnorm (x.num * y.den) (x.den * y.num)

/-- Boolean comparison x ≤ y on normalized rationals. -/
def QC.leb (x y : QC) : Bool := decide (x.num * y.den ≤ y.num * x.den)

/-- Boolean comparison x < y on normalized rationals. -/
def QC.ltb (x y : QC) : Bool := decide (x.num * y.den < y.num * x.den)

/-- Floor of a rational, as an integer. -/
def QC.floor (x : QC) : ℤ := Int.fdiv x.num x.den

/-- Fuel-based binary exponentiation (logarithmic recursion depth, so large
exponents such as the IEEE maximum 1023 reduce inside the kernel). -/
def npowFuel : ℕ → ℕ → ℕ → ℕ
| 0, _, _ => 1
| _, _, 0 => 1
| f+1, b, e =>
  let h := npowFuel f b (e / 2)
  if e % 2 = 0 then h * h else h * h * b

/-- The power b ^ e on naturals, via binary exponentiation. -/
def npow (b e : ℕ) : ℕ := npowFuel e b e

/-- The power 2 ^ k as a rational, for an integer exponent k. -/
def qpow2 : ℤ → QC
| Int.ofNat n => ⟨Int.ofNat (npow 2 n), 1⟩
| Int.negSucc n => ⟨1, npow 2 (n+1)⟩

/-- The power 10 ^ k as a rational, for an integer exponent k. -/
def qpow10 : ℤ → QC
| Int.ofNat n => ⟨Int.ofNat (npow 10 n), 1⟩
| Int.negSucc n => ⟨1, npow 10 (n+1)⟩

/-- Fuel-based binary logarithm on naturals (`natLog2 n` below supplies
sufficient fuel), kernel-reducible. -/
def nlog2 : ℕ → ℕ → ℕ
| 0, _ => 0
| f+1, n => if n ≤ 1 then 0 else nlog2 f (n / 2) + 1

/-- Floor of the binary logarithm of a positive natural number. -/
def natLog2 (n : ℕ) : ℕ := nlog2 n n

/-- Floor of the binary logarithm of a positive rational. -/
def qfloorLog2 (a : QC) : ℤ :=
  let g : ℤ := (natLog2 a.num.toNat : ℤ) - (natLog2 a.den : ℤ)
  if QC.leb (qpow2 (g+1)) a then g + 1
  else if QC.leb (qpow2 g) a then g
  else g - 1

/-- Round a rational to an integer, ties to even (the IEEE-754 default). -/
def roundHalfEven (x : QC) : ℤ :=
  let f := x.floor
  let r := QC.sub x (QC.ofInt f)
  if QC.ltb r (qnorm 1 2) then f
  else if QC.ltb (qnorm 1 2) r then f + 1
  else if Int.emod f 2 = 0 then f else f + 1

/-- IEEE-754 round-to-nearest-even at precision p (significand bits including
the implicit bit) with minimum normal exponent emin and maximum exponent emax;
`none` signals overflow beyond the largest finite value (the out-of-range error
of the Go standard library's string-to-float conversion).  This models the
per-component behavior of `strconv.ParseFloat`. -/
def roundFloat (p : ℕ) (emin emax : ℤ) (q : QC) : Option QC :=
  if q.num = 0 then some (QC.ofNat 0) else
  let isneg := q.num < 0
  let a : QC := ⟨(q.num.natAbs : ℤ), q.den⟩
  let e := max (qfloorLog2 a) emin
  let quantum := qpow2 (e - ((p:ℤ) - 1))
  let m := roundHalfEven (QC.div a quantum)
  let r := QC.mul (QC.ofInt m) quantum
  let maxFin := QC.mul (QC.sub (QC.ofInt 2) (qpow2 (1 - (p:ℤ)))) (qpow2 emax)
  if QC.leb r maxFin then some (if isneg then QC.neg r else r)
  else none

/-- Rounding to IEEE-754 binary32 (float32): 24 significand bits,
exponent range [-126, 127]. -/
def roundF32 (q : QC) : Option QC := roundFloat 24 (-126) 127 q

/-- Rounding to IEEE-754 binary64 (float64): 53 significand bits, exponent
range [-1022, 1023].  Used only to contrast with `roundF32` in the claim about
literal precision; the source never converts literals at 64-bit precision. -/
def roundF64 (q : QC) : Option QC := roundFloat 53 (-1022) 1023 q

/-- The digit list as a natural number, most significant digit first. -/
def digitsToNat (l : List Char) : ℕ :=
  l.foldl (fun n c => 10 * n + (c.toNat - ('0').toNat)) 0

/-- Parse an optional exponent suffix (e or E, optional sign, digits) of a
decimal literal; `some 0` when absent, `none` when the remaining text is not a
well-formed exponent (the lexer below never produces such text). -/
def parseExpSuffix : List Char → Option ℤ
| [] => some 0
| c :: rest =>
  if c = 'e' ∨ c = 'E' then
    match rest with
    | '+' :: ds =>
      if ds ≠ [] ∧ ds.all Char.isDigit then some (Int.ofNat (digitsToNat ds)) else none
    | '-' :: ds =>
      if ds ≠ [] ∧ ds.all Char.isDigit then some (-(Int.ofNat (digitsToNat ds))) else none
    | ds =>
      if ds ≠ [] ∧ ds.all Char.isDigit then some (Int.ofNat (digitsToNat ds)) else none
  else none

/-- Exact rational value of a decimal literal (integer part, optional fraction,
optional exponent), before any floating-point rounding. -/
def parseDecimal (s : String) : Option QC :=
  let l := s.data
  let ip := l.takeWhile Char.isDigit
  let r1 := l.dropWhile Char.isDigit
  match r1 with
  | '.' :: rest =>
    let fp := rest.takeWhile Char.isDigit
    let r2 := rest.dropWhile Char.isDigit
    if ip.isEmpty ∧ fp.isEmpty then none
    else
      (parseExpSuffix r2).map (fun ex =>
        QC.mul (QC.add (QC.ofNat (digitsToNat ip))
                       (qnorm (Int.ofNat (digitsToNat fp)) (Int.ofNat (npow 10 fp.length))))
               (qpow10 ex))
  | _ =>
    if ip.isEmpty then none
    else (parseExpSuffix r1).map (fun ex => QC.mul (QC.ofNat (digitsToNat ip)) (qpow10 ex))

/-- Model of `strconv.ParseComplex(text, 64)` as called in `parsePrimary`
(main.go line 413): bit size 64 denotes `complex64`, so each component is
converted at float32 precision; the scanner's Int and Float tokens are always
plain real decimals (no imaginary suffix), so the result is the float32
rounding of the decimal value, or `none` (a conversion error, which aborts the
parse) when it overflows float32. -/
def parseComplex64 (s : String) : Option QC :=
  (parseDecimal s).bind roundF32

/-- Model of Go `complex128` values: exact finite values, a single point at
infinity (`cmplx.IsInf`), and an invalid value (NaN components). -/
inductive CV where
| fin (re im : QC)
| inf
| nan
deriving DecidableEq

/-- Finite complex value with integer parts, for readable statements. -/
def cvInt (re im : ℤ) : CV := CV.fin (QC.ofInt re) (QC.ofInt im)

/-- Complex negation (Go unary minus on complex128). -/
def CV.neg : CV → CV
| CV.fin a b => CV.fin (QC.neg a) (QC.neg b)
| CV.inf => CV.inf
| CV.nan => CV.nan

/-- Complex addition.  Sums of two infinities are collapsed to `nan` since the
directional information needed to distinguish Inf+Inf from Inf+(-Inf) is not
tracked; no claim exercises that corner. -/
def CV.add : CV → CV → CV
| CV.nan, _ => CV.nan
| _, CV.nan => CV.nan
| CV.inf, CV.inf => CV.nan
| CV.inf, CV.fin _ _ => CV.inf
| CV.fin _ _, CV.inf => CV.inf
| CV.fin a b, CV.fin c d => CV.fin (QC.add a c) (QC.add b d)

/-- Complex subtraction, with the same conventions as `CV.add`. -/
def CV.sub : CV → CV → CV
| CV.nan, _ => CV.nan
| _, CV.nan => CV.nan
| CV.inf, CV.inf => CV.nan
| CV.inf, CV.fin _ _ => CV.inf
| CV.fin _ _, CV.inf => CV.inf
| CV.fin a b, CV.fin c d => CV.fin (QC.sub a c) (QC.sub b d)

/-- Complex multiplication; infinity times an exact zero is invalid. -/
def CV.mul : CV → CV → CV
| CV.nan, _ => CV.nan
| _, CV.nan => CV.nan
| CV.inf, CV.inf => CV.inf
| CV.inf, CV.fin c d => if c.num = 0 ∧ d.num = 0 then CV.nan else CV.inf
| CV.fin a b, CV.inf => if a.num = 0 ∧ b.num = 0 then CV.nan else CV.inf
| CV.fin a b, CV.fin c d =>
  CV.fin (QC.sub (QC.mul a c) (QC.mul b d)) (QC.add (QC.mul a d) (QC.mul b c))

/-- Complex division.  A nonzero finite value divided by exact zero is an
infinity (IEEE non-trapping division by zero, as in Go); zero over zero is
invalid; a finite value over infinity is zero. -/
def CV.div : CV → CV → CV
| CV.nan, _ => CV.nan
| _, CV.nan => CV.nan
| CV.inf, CV.inf => CV.nan
| CV.inf, CV.fin _ _ => CV.inf
| CV.fin _ _, CV.inf => CV.fin (QC.ofNat 0) (QC.ofNat 0)
| CV.fin a b, CV.fin c d =>
  if c.num = 0 ∧ d.num = 0 then
    (if a.num = 0 ∧ b.num = 0 then CV.nan else CV.inf)
  else
    let den := QC.add (QC.mul c c) (QC.mul d d)
    CV.fin (QC.div (QC.add (QC.mul a c) (QC.mul b d)) den)
           (QC.div (QC.sub (QC.mul b c) (QC.mul a d)) den)

/-- An interpretation of the six library functions dispatched by `call.Eval`
(main.go lines 223-239: `cmplx.Pow`, `cmplx.Sin`, `cmplx.Cos`, `cmplx.Sqrt`,
`cmplx.Exp`, `cmplx.Log`).  These are Go-standard-library transcendental
functions, external to the repository, and no claim depends on their values, so
the evaluator is parameterized over an arbitrary interpretation. -/
structure FnImpl where
  pow : CV → CV → CV
  sin : CV → CV
  cos : CV → CV
  sqrt : CV → CV
  exp : CV → CV
  log : CV → CV

/-- A placeholder interpretation of the function library, used only to
instantiate theorems that hold for every `FnImpl`. -/
def trivialFns : FnImpl :=
  ⟨fun _ _ => CV.nan, fun _ => CV.nan, fun _ => CV.nan,
   fun _ => CV.nan, fun _ => CV.nan, fun _ => CV.nan⟩

/-- The AST (main.go lines 165-187): `Var`, `literal`, `unary`, `binary`,
`call`.  Variable names are strings (Go `type Var string`). -/
inductive Expr where
| var (name : String)
| lit (val : CV)
| unary (op : Char) (z : Expr)
| binary (op : Char) (z w : Expr)
| call (fn : String) (args : List Expr)

/-- Environment lookup (main.go lines 189-193): `Env` is `map[Var]complex128`
and `Var.Eval` returns `env[v]`; indexing a Go map at a missing key yields the
zero value, here `0 + 0i`. -/
def lookupEnv (env : List (String × CV)) (v : String) : CV :=
  match env.find? (fun p => p.1 == v) with
  | some p => p.2
  | none => CV.fin (QC.ofNat 0) (QC.ofNat 0)

/-- Apply a binary complex operation under the evaluator's explicit
panic-propagation (`none` short-circuits). -/
def evalBin (f : CV → CV → CV) : Option CV → Option CV → Option CV
| some a, some b => some (f a b)
| _, _ => none

/-- Apply a unary complex operation under the evaluator's explicit
panic-propagation. -/
def evalUn (f : CV → CV) : Option CV → Option CV
| some a => some (f a)
| none => none

/-- The evaluator (main.go lines 191-239).  Each `Eval` method is total except
for the `panic` calls, modelled as `none`: the unsupported-operator defaults in
`unary.Eval` and `binary.Eval`, the unsupported-function default in `call.Eval`,
and the out-of-range argument indexing `c.args[0]` / `c.args[1]` in `call.Eval`
(a run-time panic in Go when the argument list is too short).  The operator or
function name is inspected before any operand is evaluated, as in the Go
`switch` statements.  Note the evaluator dispatches on the names `cos` and
`Log` (capital L). -/
def evalExpr (F : FnImpl) : Expr → List (String × CV) → Option CV
| Expr.var v, env => some (lookupEnv env v)
| Expr.lit c, _ => some c
| Expr.unary op z, env =>
  match op with
  | '+' => evalExpr F z env
  | '-' => evalUn CV.neg (evalExpr F z env)
  | _ => none
| Expr.binary op z w, env =>
  match op with
  | '+' => evalBin CV.add (evalExpr F z env) (evalExpr F w env)
  | '-' => evalBin CV.sub (evalExpr F z env) (evalExpr F w env)
  | '*' => evalBin CV.mul (evalExpr F z env) (evalExpr F w env)
  | '/' => evalBin CV.div (evalExpr F z env) (evalExpr F w env)
  | _ => none
| Expr.call fn args, env =>
  match fn with
  | "pow" =>
    match args with
    | a :: b :: _ => evalBin F.pow (evalExpr F a env) (evalExpr F b env)
    | _ => none
  | "sin" =>
    match args with
    | a :: _ => evalUn F.sin (evalExpr F a env)
    | [] => none
  | "cos" =>
    match args with
    | a :: _ => evalUn F.cos (evalExpr F a env)
    | [] => none
  | "sqrt" =>
    match args with
    | a :: _ => evalUn F.sqrt (evalExpr F a env)
    | [] => none
  | "exp" =>
    match args with
    | a :: _ => evalUn F.exp (evalExpr F a env)
    | [] => none
  | "Log" =>
    match args with
    | a :: _ => evalUn F.log (evalExpr F a env)
    | [] => none
  | _ => none


/-- The fixed function registry (main.go line 267):
`var numParams = map[string]int{"pow":2,"sin":1,"sqrt":1,"exp":1,"Log":1}`,
as a lookup function.  Note: the map contains no entry for `cos` (although
`call.Eval` supports it) and registers `Log` with a capital L, not `log`. -/
def numParams (fn : String) : Option ℕ :=
  if fn = "pow" then some 2
  else if fn = "sin" then some 1
  else if fn = "sqrt" then some 1
  else if fn = "exp" then some 1
  else if fn = "Log" then some 1
  else none

/-- Validation errors, one constructor per `fmt.Errorf` site in the `Check`
methods (main.go lines 241-283), carrying exactly the data interpolated into
the corresponding format string. -/
inductive CheckErr where
| unexpectedUnaryOp (op : Char)
| unexpectedBinaryOp (op : Char)
| unknownFunction (fn : String)
| arityMismatch (fn : String) (got expected : ℕ)
deriving DecidableEq

/-- Insertion into the seen-variables accumulator: Go's `vars[v] = true` on the
set `map[Var]bool`, modelled as a duplicate-free list in first-seen order. -/
def insertVar (v : String) (l : List String) : List String :=
  if v ∈ l then l else l ++ [v]

mutual
/-- The validation walk (main.go lines 241-283).  `Var.Check` records the name
and succeeds; `literal.Check` succeeds; `unary.Check` requires the operator to
be in `"+-"` before recursing; `binary.Check` requires membership in `"+-*/"`,
then checks the left operand and short-circuits before the right;
`call.Check` looks the function name up in `numParams`, failing with an
unknown-function error when absent and with an arity error (function name,
actual count, expected count) when the argument count differs, then checks the
arguments in order, short-circuiting on the first failure. -/
def Check : Expr → List String → Except CheckErr (List String)
| Expr.var v, vs => Except.ok (insertVar v vs)
| Expr.lit _, vs => Except.ok vs
| Expr.unary op z, vs =>
  if op = '+' ∨ op = '-' then Check z vs
  else Except.error (CheckErr.unexpectedUnaryOp op)
| Expr.binary op z w, vs =>
  if op = '+' ∨ op = '-' ∨ op = '*' ∨ op = '/' then
    match Check z vs with
    | Except.error e => Except.error e
    | Except.ok vs1 => Check w vs1
  else Except.error (CheckErr.unexpectedBinaryOp op)
| Expr.call fn args, vs =>
  match numParams fn with
  | none => Except.error (CheckErr.unknownFunction fn)
  | some arity =>
    if args.length ≠ arity then
      Except.error (CheckErr.arityMismatch fn args.length arity)
    else CheckList args vs

/-- Sequential validation of a call's arguments (the `for`/`range` loop in
`call.Check`), threading the accumulator left to right. -/
def CheckList : List Expr → List String → Except CheckErr (List String)
| [], vs => Except.ok vs
| a :: rest, vs =>
  match Check a vs with
  | Except.error e => Except.error e
  | Except.ok vs1 => CheckList rest vs1
end

/-- Tokens of the lexer: identifiers, numeric literals carrying their source
text (the parser converts the text itself, which is what makes the literal
precision observable), any other character verbatim, and end of input. -/
inductive Token where
| ident (s : String)
| num (s : String)
| ch (c : Char)
| eof
deriving DecidableEq

/-- `lexer.describe` (main.go lines 319-329): the token description used in
error messages — note it contains the token text only, never a position. -/
def describe : Token → String
| Token.eof => "end of file"
| Token.ident s => "identifier " ++ s
| Token.num s => "number " ++ s
| Token.ch c => "'" ++ c.toString ++ "'"

/-- Operator precedence (main.go lines 331-339): 2 for `*` and `/`, 1 for `+`
and `-`, 0 for every other token. -/
def precedence : Token → ℕ
| Token.ch '*' => 2
| Token.ch '/' => 2
| Token.ch '+' => 1
| Token.ch '-' => 1
| _ => 0

/-- First character of an identifier (ASCII letter or underscore). -/
def isIdentStart (c : Char) : Bool := c.isAlpha || c = '_'

/-- Subsequent character of an identifier (ASCII letter, digit or underscore). -/
def isIdentRest (c : Char) : Bool := c.isAlphanum || c = '_'

/-- Whitespace skipped by the scanner. -/
def isSpace (c : Char) : Bool := c = ' ' || c = '\t' || c = '\n' || c = '\r'

/-- Scan an optional exponent part (`e`/`E`, optional sign, at least one
digit) of a numeric literal; returns the consumed characters and the rest. -/
def scanExpPart : List Char → List Char × List Char
| [] => ([], [])
| c :: rest =>
  if c = 'e' ∨ c = 'E' then
    match rest with
    | s :: rest2 =>
      if s = '+' ∨ s = '-' then
        let ds := rest2.takeWhile Char.isDigit
        if ds.isEmpty then ([], c :: rest)
        else (c :: s :: ds, rest2.dropWhile Char.isDigit)
      else
        let ds := rest.takeWhile Char.isDigit
        if ds.isEmpty then ([], c :: rest)
        else (c :: ds, rest.dropWhile Char.isDigit)
    | [] => ([], [c])
  else ([], c :: rest)

/-- Scan an optional fraction (`.` followed by digits) and exponent after the
integer digits of a numeric literal. -/
def scanFracExp (l : List Char) : List Char × List Char :=
  match l with
  | '.' :: rest =>
    let ds := rest.takeWhile Char.isDigit
    let r := rest.dropWhile Char.isDigit
    let ep := scanExpPart r
    ('.' :: ds ++ ep.1, ep.2)
  | _ => scanExpPart l

/-- The lexer: Go's `text/scanner` with mode
`ScanIdents | ScanInts | ScanFloats` (main.go lines 352-353), modelled over
ASCII for the decimal literal forms.  Whitespace is skipped; identifiers and
numbers are scanned maximally; every other character is returned as itself
(the scanner has no failing path in this mode — unknown characters surface
later as parser errors).  The fuel argument is a termination artifact:
`s.length + 1` always suffices because every step consumes at least one
character. -/
def lexList : ℕ → List Char → List Token
| 0, _ => []
| _, [] => []
| f+1, c :: cs =>
  if isSpace c then lexList f cs
  else if isIdentStart c then
    Token.ident (String.mk (c :: cs.takeWhile isIdentRest)) :: lexList f (cs.dropWhile isIdentRest)
  else if c.isDigit then
    let ds := cs.takeWhile Char.isDigit
    let r1 := cs.dropWhile Char.isDigit
    let fe := scanFracExp r1
    Token.num (String.mk (c :: (ds ++ fe.1))) :: lexList f fe.2
  else if c = '.' ∧ (cs.headD ' ').isDigit then
    let ds := cs.takeWhile Char.isDigit
    let r1 := cs.dropWhile Char.isDigit
    let ep := scanExpPart r1
    Token.num (String.mk (c :: (ds ++ ep.1))) :: lexList f ep.2
  else Token.ch c :: lexList f cs

/-- Tokenize a whole source string. -/
def lexString (s : String) : List Token := lexList (s.length + 1) s.data

/-- The parser's one-token lookahead: the head of the remaining token list,
or end-of-input. -/
def peek (l : List Token) : Token := l.headD Token.eof

/-- Parse errors, one constructor per failure site in the parser
(main.go lines 341-432), carrying exactly the data interpolated into the
corresponding message: the `lexPanic` sites in `parsePrimary` (recovered in
`Parse`) and the trailing-input error in `Parse`.  `outOfFuel` is a modelling
artifact that no run of `Parse` reaches. -/
inductive ParseErr where
| unexpectedTok (desc : String)
| gotWantRParen (desc : String)
| litError (text : String)
| outOfFuel
deriving DecidableEq

mutual
/-- `parseExpr` (main.go line 362): an expression is a binary expression at
minimum precedence 1. -/
def parseExpr (fuel : ℕ) (toks : List Token) : Except ParseErr (Expr × List Token) :=
  match fuel with
  | 0 => Except.error ParseErr.outOfFuel
  | f+1 => parseBinary f 1 toks
termination_by structural fuel

/-- `parseBinary` (main.go lines 364-375): parse a unary expression, then run
the precedence-climbing loops. -/
def parseBinary (fuel : ℕ) (prec1 : ℕ) (toks : List Token) : Except ParseErr (Expr × List Token) :=
  match fuel with
  | 0 => Except.error ParseErr.outOfFuel
  | f+1 => do
    let r ← parseUnary f toks
    binOuter f (precedence (peek r.2)) (prec1) r.1 r.2
termination_by structural fuel

/-- The outer loop of `parseBinary`:
`for prec := precedence(lex.token); prec >= prec1; prec--`.  The loop counter
is initialized once from the lookahead and then only decremented, exactly as
in the source. -/
def binOuter (fuel : ℕ) (prec prec1 : ℕ) (lhs : Expr) (toks : List Token) :
    Except ParseErr (Expr × List Token) :=
  match fuel with
  | 0 => Except.error ParseErr.outOfFuel
  | f+1 =>
    if prec1 ≤ prec then do
      let r ← binInner f prec lhs toks
      binOuter f (prec - 1) prec1 r.1 r.2
    else Except.ok (lhs, toks)
termination_by structural fuel

/-- The inner loop of `parseBinary`:
`for precedence(lex.token) == prec`, consuming one operator of precedence
`prec` per iteration and parsing its right-hand side at `prec + 1`
(left-associative precedence climbing).  It is only ever entered with
`prec ≥ 1`, so the guard can only hold on an operator character token. -/
def binInner (fuel : ℕ) (prec : ℕ) (lhs : Expr) (toks : List Token) :
    Except ParseErr (Expr × List Token) :=
  match fuel with
  | 0 => Except.error ParseErr.outOfFuel
  | f+1 =>
    match toks with
    | Token.ch c :: rest =>
      if precedence (Token.ch c) = prec then do
        let r ← parseBinary f (prec + 1) rest
        binInner f prec (Expr.binary c lhs r.1) r.2
      else Except.ok (lhs, toks)
    | _ => Except.ok (lhs, toks)
termination_by structural fuel

/-- `parseUnary` (main.go lines 377-384): a leading `+` or `-` applies to a
recursively parsed unary expression; otherwise parse a primary. -/
def parseUnary (fuel : ℕ) (toks : List Token) : Except ParseErr (Expr × List Token) :=
  match fuel with
  | 0 => Except.error ParseErr.outOfFuel
  | f+1 =>
    match toks with
    | Token.ch '+' :: rest => do
      let r ← parseUnary f rest
      Except.ok (Expr.unary '+' r.1, r.2)
    | Token.ch '-' :: rest => do
      let r ← parseUnary f rest
      Except.ok (Expr.unary '-' r.1, r.2)
    | _ => parsePrimary f toks
termination_by structural fuel

/-- `parsePrimary` (main.go lines 386-432): an identifier alone is a variable
reference; an identifier followed by `(` is a call with comma-separated
arguments requiring a closing `)`; a numeric token is converted by
`strconv.ParseComplex(text, 64)`, a conversion error aborting the parse; a
parenthesized expression requires a closing `)`; anything else is an
unexpected-token error. -/
def parsePrimary (fuel : ℕ) (toks : List Token) : Except ParseErr (Expr × List Token) :=
  match fuel with
  | 0 => Except.error ParseErr.outOfFuel
  | f+1 =>
    match toks with
    | Token.ident id :: rest =>
      match rest with
      | Token.ch '(' :: rest2 =>
        match rest2 with
        | Token.ch ')' :: rest3 => Except.ok (Expr.call id [], rest3)
        | _ => do
          let r ← parseArgs f rest2
          match r.2 with
          | Token.ch ')' :: rest3 => Except.ok (Expr.call id r.1, rest3)
          | t => Except.error (ParseErr.gotWantRParen (describe (peek t)))
      | _ => Except.ok (Expr.var id, rest)
    | Token.num text :: rest =>
      match parseComplex64 text with
      | some q => Except.ok (Expr.lit (CV.fin q (QC.ofNat 0)), rest)
      | none => Except.error (ParseErr.litError text)
    | Token.ch '(' :: rest => do
      let r ← parseExpr f rest
      match r.2 with
      | Token.ch ')' :: rest2 => Except.ok (r.1, rest2)
      | t => Except.error (ParseErr.gotWantRParen (describe (peek t)))
    | t => Except.error (ParseErr.unexpectedTok (describe (peek t)))
termination_by structural fuel

/-- The argument loop of `parsePrimary`: parse expressions separated by
commas. -/
def parseArgs (fuel : ℕ) (toks : List Token) : Except ParseErr (List Expr × List Token) :=
  match fuel with
  | 0 => Except.error ParseErr.outOfFuel
  | f+1 => do
    let r ← parseExpr f toks
    match r.2 with
    | Token.ch ',' :: rest => do
      let r2 ← parseArgs f rest
      Except.ok (r.1 :: r2.1, r2.2)
    | t => Except.ok ([r.1], t)
termination_by structural fuel
end

/-- `Parse` (main.go lines 341-360): tokenize, parse one expression, and
require the lookahead to be end-of-input afterwards, otherwise an
unexpected-token error for the trailing input.  The recovered `lexPanic`
values of the source are ordinary `Except.error` results here.  The fuel
passed down far exceeds the maximum possible nesting depth for the token
list, so `ParseErr.outOfFuel` is unreachable. -/
def Parse (input : String) : Except ParseErr Expr :=
  let toks := lexString input
  match parseExpr (8 * (toks.length + 1)) toks with
  | Except.error e => Except.error e
  | Except.ok r =>
    match r.2 with
    | [] => Except.ok r.1
    | t => Except.error (ParseErr.unexpectedTok (describe (peek t)))

/-- The error taxonomy of `parseAndCheck` (main.go lines 285-306): the empty
input check, parse errors, validation errors, the too-many-variables check and
the undefined-variable check. -/
inductive Err where
| emptyExpression
| parseError (e : ParseErr)
| checkError (e : CheckErr)
| tooManyVariables
| undefinedVariable (v : String)
deriving DecidableEq

/-- `parseAndCheck` (main.go lines 285-306): reject the empty string, parse,
run the validation walk with an empty seen-variables set, reject more than one
distinct variable name, then reject any collected name different from `z`
(the loop `for v := range vars`, which inspects at most one element after the
length check). -/
def parseAndCheck (s : String) : Except Err Expr :=
  if s = "" then Except.error Err.emptyExpression
  else
    match Parse s with
    | Except.error e => Except.error (Err.parseError e)
    | Except.ok expr =>
      match Check expr [] with
      | Except.error e => Except.error (Err.checkError e)
      | Except.ok vars =>
        if 1 < vars.length then Except.error Err.tooManyVariables
        else
          match vars.find? (fun v => v != "z") with
          | some v => Except.error (Err.undefinedVariable v)
          | none => Except.ok expr

mutual
/-- Claim-side predicate: every unary operator of the expression is in
`{+, -}`, every binary operator in `{+, -, *, /}`, and every called function
is registered in `numParams` with exactly its registered arity. -/
def legalB : Expr → Bool
| Expr.var _ => true
| Expr.lit _ => true
| Expr.unary op z => (op == '+' || op == '-') && legalB z
| Expr.binary op z w =>
  (op == '+' || op == '-' || op == '*' || op == '/') && legalB z && legalB w
| Expr.call fn args =>
  (match numParams fn with
   | some n => args.length == n
   | none => false) && legalBL args

/-- `legalB` over an argument list. -/
def legalBL : List Expr → Bool
| [] => true
| e :: es => legalB e && legalBL es
end

mutual
/-- Claim-side function: the free-variable names of an expression, in
left-to-right order of occurrence, with duplicates. -/
def varList : Expr → List String
| Expr.var v => [v]
| Expr.lit _ => []
| Expr.unary _ z => varList z
| Expr.binary _ z w => varList z ++ varList w
| Expr.call _ args => varListL args

/-- `varList` over an argument list. -/
def varListL : List Expr → List String
| [] => []
| e :: es => varList e ++ varListL es
end

/-- Membership in the seen-variables accumulator after insertion. -/
theorem mem_insertVar (x v : String) (l : List String) :
    x ∈ insertVar v l ↔ x ∈ l ∨ x = v := by
  unfold insertVar
  split
  · rename_i h
    constructor
    · exact Or.inl
    · rintro (hx | rfl)
      · exact hx
      · exact h
  · simp [List.mem_append]

/-- Insertion preserves duplicate-freeness of the accumulator. -/
theorem nodup_insertVar (v : String) (l : List String) (h : l.Nodup) :
    (insertVar v l).Nodup := by
  unfold insertVar
  split
  · exact h
  · rename_i hv
    simp [List.nodup_append, h, hv]

mutual
/-- An expression whose operators are legal and whose calls are registered at
their registered arities validates successfully from any accumulator; the
resulting accumulator holds exactly the old names plus the expression's free
variables, and duplicate-freeness is preserved. -/
theorem check_ok (e : Expr) (h : legalB e = true) (vs : List String) :
    ∃ vs2, Check e vs = Except.ok vs2 ∧
      (∀ x, x ∈ vs2 ↔ (x ∈ vs ∨ x ∈ varList e)) ∧
      (vs.Nodup → vs2.Nodup) := by
  cases e with
  | var v =>
    refine ⟨insertVar v vs, by simp [Check], ?_, fun hn => nodup_insertVar v vs hn⟩
    intro x
    rw [mem_insertVar]
    simp [varList]
  | lit c =>
    exact ⟨vs, by simp [Check], by simp [varList], fun hn => hn⟩
  | unary op z =>
    simp only [legalB, Bool.and_eq_true, Bool.or_eq_true, beq_iff_eq] at h
    obtain ⟨hop, hz⟩ := h
    obtain ⟨vs2, hc, hm, hn⟩ := check_ok z hz vs
    refine ⟨vs2, ?_, ?_, hn⟩
    · simp only [Check]
      rw [if_pos hop]
      exact hc
    · intro x
      rw [hm x]
      simp [varList]
  | binary op z w =>
    simp only [legalB, Bool.and_eq_true, Bool.or_eq_true, beq_iff_eq] at h
    obtain ⟨⟨hop, hz⟩, hw⟩ := h
    obtain ⟨vs1, hc1, hm1, hn1⟩ := check_ok z hz vs
    obtain ⟨vs2, hc2, hm2, hn2⟩ := check_ok w hw vs1
    refine ⟨vs2, ?_, ?_, fun hn => hn2 (hn1 hn)⟩
    · simp only [Check]
      rw [if_pos ?side]
      case side => tauto
      rw [hc1]
      exact hc2
    · intro x
      rw [hm2 x, hm1 x]
      simp [varList, List.mem_append, or_assoc]
  | call fn args =>
    simp only [legalB, Bool.and_eq_true] at h
    obtain ⟨h1, h2⟩ := h
    cases hnp : numParams fn with
    | none => rw [hnp] at h1; simp at h1
    | some n =>
      rw [hnp] at h1
      simp only [beq_iff_eq] at h1
      obtain ⟨vs2, hcl, hm, hn⟩ := checkList_ok args h2 vs
      refine ⟨vs2, ?_, ?_, hn⟩
      · simp only [Check, hnp]
        rw [if_neg (by omega)]
        exact hcl
      · intro x
        rw [hm x]
        simp [varList]

/-- `check_ok` for an argument list, threading the accumulator left to
right. -/
theorem checkList_ok (l : List Expr) (h : legalBL l = true) (vs : List String) :
    ∃ vs2, CheckList l vs = Except.ok vs2 ∧
      (∀ x, x ∈ vs2 ↔ (x ∈ vs ∨ x ∈ varListL l)) ∧
      (vs.Nodup → vs2.Nodup) := by
  cases l with
  | nil =>
    exact ⟨vs, by simp [CheckList], by simp [varListL], fun hn => hn⟩
  | cons a rest =>
    simp only [legalBL, Bool.and_eq_true] at h
    obtain ⟨ha, hrest⟩ := h
    obtain ⟨vs1, hc1, hm1, hn1⟩ := check_ok a ha vs
    obtain ⟨vs2, hc2, hm2, hn2⟩ := checkList_ok rest hrest vs1
    refine ⟨vs2, ?_, ?_, fun hn => hn2 (hn1 hn)⟩
    · simp only [CheckList, hc1]
      exact hc2
    · intro x
      rw [hm2 x, hm1 x]
      simp [varListL, List.mem_append, or_assoc]
end

/-- A successfully validated expression evaluates to `some` complex value for
every function-library interpretation and every environment: the
unsupported-operator, unsupported-function and argument-indexing panic
branches of the `Eval` methods are unreachable for validated expressions. -/
theorem eval_ok (e : Expr) (vs vs2 : List String) (h : Check e vs = Except.ok vs2)
    (F : FnImpl) (env : List (String × CV)) : ∃ v, evalExpr F e env = some v := by
  cases e with
  | var v => exact ⟨lookupEnv env v, by simp [evalExpr]⟩
  | lit c => exact ⟨c, by simp [evalExpr]⟩
  | unary op z =>
    simp only [Check] at h
    split at h
    · rename_i hop
      rcases hop with rfl | rfl
      · obtain ⟨v, hv⟩ := eval_ok z vs vs2 h F env
        exact ⟨v, by simp [evalExpr, hv]⟩
      · obtain ⟨v, hv⟩ := eval_ok z vs vs2 h F env
        exact ⟨CV.neg v, by simp [evalExpr, evalUn, hv]⟩
    · simp at h
  | binary op z w =>
    simp only [Check] at h
    split at h
    · rename_i hop
      split at h
      · simp at h
      · rename_i vs1 hz
        obtain ⟨x, hx⟩ := eval_ok z vs vs1 hz F env
        obtain ⟨y, hy⟩ := eval_ok w vs1 vs2 h F env
        rcases hop with rfl | rfl | rfl | rfl
        · exact ⟨CV.add x y, by simp [evalExpr, evalBin, hx, hy]⟩
        · exact ⟨CV.sub x y, by simp [evalExpr, evalBin, hx, hy]⟩
        · exact ⟨CV.mul x y, by simp [evalExpr, evalBin, hx, hy]⟩
        · exact ⟨CV.div x y, by simp [evalExpr, evalBin, hx, hy]⟩
    · simp at h
  | call fn args =>
    simp only [Check] at h
    split at h
    · simp at h
    · rename_i arity hnp
      split at h
      · simp at h
      · rename_i hlen
        have hlen2 : args.length = arity := by omega
        unfold numParams at hnp
        split_ifs at hnp with hf1 hf2 hf3 hf4 hf5
        · -- pow, arity 2
          subst hf1
          have harity : arity = 2 := by
            have := hnp
            simp at this
            omega
          subst harity
          match args, hlen2 with
          | a :: b :: rest, _ =>
            simp only [CheckList] at h
            split at h
            · simp at h
            · rename_i u1 ha
              split at h
              · simp at h
              · rename_i u2 hb
                obtain ⟨x, hx⟩ := eval_ok a vs u1 ha F env
                obtain ⟨y, hy⟩ := eval_ok b u1 u2 hb F env
                exact ⟨F.pow x y, by simp [evalExpr, evalBin, hx, hy]⟩
        · subst hf2
          have harity : arity = 1 := by simp at hnp; omega
          subst harity
          match args, hlen2 with
          | a :: rest, _ =>
            simp only [CheckList] at h
            split at h
            · simp at h
            · rename_i u1 ha
              obtain ⟨x, hx⟩ := eval_ok a vs u1 ha F env
              exact ⟨F.sin x, by simp [evalExpr, evalUn, hx]⟩
        · subst hf3
          have harity : arity = 1 := by simp at hnp; omega
          subst harity
          match args, hlen2 with
          | a :: rest, _ =>
            simp only [CheckList] at h
            split at h
            · simp at h
            · rename_i u1 ha
              obtain ⟨x, hx⟩ := eval_ok a vs u1 ha F env
              exact ⟨F.sqrt x, by simp [evalExpr, evalUn, hx]⟩
        · subst hf4
          have harity : arity = 1 := by simp at hnp; omega
          subst harity
          match args, hlen2 with
          | a :: rest, _ =>
            simp only [CheckList] at h
            split at h
            · simp at h
            · rename_i u1 ha
              obtain ⟨x, hx⟩ := eval_ok a vs u1 ha F env
              exact ⟨F.exp x, by simp [evalExpr, evalUn, hx]⟩
        · subst hf5
          have harity : arity = 1 := by simp at hnp; omega
          subst harity
          match args, hlen2 with
          | a :: rest, _ =>
            simp only [CheckList] at h
            split at h
            · simp at h
            · rename_i u1 ha
              obtain ⟨x, hx⟩ := eval_ok a vs u1 ha F env
              exact ⟨F.log x, by simp [evalExpr, evalUn, hx]⟩

/-- Parsing the empty string fails at once: the lookahead is end-of-input and
`parsePrimary` reports it as unexpected. -/
theorem Parse_empty_string : Parse ("") = Except.error (ParseErr.unexpectedTok ("end of file")) := rfl

/-- A successful parse implies the source string is nonempty. -/
theorem parse_ok_ne_empty (s : String) (e : Expr) (hp : Parse s = Except.ok e) : s ≠ "" := by
  intro hs
  subst hs
  rw [Parse_empty_string] at hp
  exact Except.noConfusion hp

/-- A duplicate-free list all of whose elements equal `z` has at most one
element. -/
theorem nodup_all_z_length (l : List String) (hall : ∀ x ∈ l, x = "z") (hnd : l.Nodup) :
    ¬ 1 < l.length := by
  cases l with
  | nil => simp
  | cons a t =>
    cases t with
    | nil => simp
    | cons b u =>
      exfalso
      have ha : a = "z" := hall a (by simp)
      have hb : b = "z" := hall b (by simp)
      subst ha
      subst hb
      simp at hnd
  
/-- The undefined-variable scan finds nothing in a list whose elements all
equal `z`. -/
theorem find_ne_z_none (l : List String) (hall : ∀ x ∈ l, x = "z") :
    l.find? (fun v => v != "z") = none := by
  induction l with
  | nil => simp
  | cons a t ih =>
    have ha : a = "z" := hall a (by simp)
    subst ha
    simp only [List.find?]
    have : (("z" : String) != "z") = false := by simp
    rw [this]
    exact ih (fun x hx => hall x (by simp [hx]))

/-- Behavior of the `parseAndCheck` driver after a successful parse and
validation walk: the length check, then the variable-name scan. -/
theorem parseAndCheck_of_ok (s : String) (e : Expr) (vars : List String)
    (hp : Parse s = Except.ok e) (hc : Check e [] = Except.ok vars) :
    parseAndCheck s =
      (if 1 < vars.length then Except.error Err.tooManyVariables
       else
         match vars.find? (fun v => v != "z") with
         | some v => Except.error (Err.undefinedVariable v)
         | none => Except.ok e) := by
  have hs := parse_ok_ne_empty s e hp
  simp only [parseAndCheck, if_neg hs, hp, hc]

set_option maxRecDepth 16384

/-- C1 (amended): validation of a `Call(name, args)` node succeeds exactly when
`name` is in the fixed registry `pow ↦ 2, sin ↦ 1, sqrt ↦ 1, exp ↦ 1, Log ↦ 1`
(there is no `cos` entry, and the logarithm is registered as `Log`, capital L),
the argument count equals the registered arity, and the arguments themselves
validate; an absent name yields an unknown-function error naming it (validating
the parse of `foo(1)` fails that way), and a present name with a different
count yields an arity error carrying the function name, the actual count, and
the expected count (validating the parse of `sin(1,2)` fails with
`sin`, actual 2, expected 1). -/
theorem C1_call_check :
    (∀ fn n, numParams fn = some n ↔
      (fn, n) ∈ [(("pow"), 2), (("sin"), 1), (("sqrt"), 1), (("exp"), 1), (("Log"), 1)]) ∧
    (∀ fn args vs, numParams fn = none →
      Check (Expr.call fn args) vs = Except.error (CheckErr.unknownFunction fn)) ∧
    (∀ fn n args vs, numParams fn = some n → args.length ≠ n →
      Check (Expr.call fn args) vs = Except.error (CheckErr.arityMismatch fn args.length n)) ∧
    (∀ fn n args vs, numParams fn = some n → args.length = n →
      Check (Expr.call fn args) vs = CheckList args vs) ∧
    parseAndCheck ("foo(1)") = Except.error (Err.checkError (CheckErr.unknownFunction ("foo"))) ∧
    parseAndCheck ("sin(1,2)") = Except.error (Err.checkError (CheckErr.arityMismatch ("sin") 2 1)) := by
  refine ⟨?_, ?_, ?_, ?_, rfl, rfl⟩
  · intro fn n
    constructor
    · intro h
      unfold numParams at h
      split_ifs at h with h1 h2 h3 h4 h5 <;>
        (injection h with h0; subst h0; subst_vars; simp)
    · intro h
      simp only [List.mem_cons, Prod.mk.injEq, List.not_mem_nil, or_false] at h
      rcases h with ⟨rfl, rfl⟩ | ⟨rfl, rfl⟩ | ⟨rfl, rfl⟩ | ⟨rfl, rfl⟩ | ⟨rfl, rfl⟩ <;> rfl
  · intro fn args vs h
    simp [Check, h]
  · intro fn n args vs h hne
    simp only [Check, h]
    rw [if_pos hne]
  · intro fn n args vs h hlen
    simp only [Check, h]
    rw [if_neg (by omega)]

/-- Witness for C1: the unknown-function and arity branches at concrete
inputs (`cos` is genuinely absent from the registry). -/
theorem C1_call_check_w :
    Check (Expr.call ("cos") [Expr.lit (cvInt 1 0)]) [] =
      Except.error (CheckErr.unknownFunction ("cos")) ∧
    Check (Expr.call ("sin") [Expr.lit (cvInt 1 0), Expr.lit (cvInt 2 0)]) [] =
      Except.error (CheckErr.arityMismatch ("sin") 2 1) :=
  ⟨C1_call_check.2.1 ("cos") [Expr.lit (cvInt 1 0)] [] rfl,
   C1_call_check.2.2.1 ("sin") 1 [Expr.lit (cvInt 1 0), Expr.lit (cvInt 2 0)] [] rfl (by decide)⟩

/-- Counterexample to C1 as stated: the claimed registry entries `cos ↦ 1` and
`log ↦ 1` do not exist — validating `cos(1)` or `log(1)` fails with an
unknown-function error, although the claim says a one-argument call to a
registered `cos`/`log` must validate; the logarithm entry is spelled `Log`. -/
theorem C1_registry_cex :
    numParams ("cos") = none ∧
    numParams ("log") = none ∧
    parseAndCheck ("cos(1)") = Except.error (Err.checkError (CheckErr.unknownFunction ("cos"))) ∧
    parseAndCheck ("log(1)") = Except.error (Err.checkError (CheckErr.unknownFunction ("log"))) ∧
    numParams ("Log") = some 1 :=
  ⟨rfl, rfl, rfl, rfl, rfl⟩

/-- C2: if a text parses successfully to an expression that uses only the
permitted operators and registered functions at their registered arities
(`legalB`) and references no variable other than `z`, then `parseAndCheck`
accepts it; and every accepted expression evaluates to `some` complex value
under every function-library interpretation and every environment — the panic
branches of the evaluator are unreachable for validated expressions. -/
theorem C2_valid_total (s : String) (e : Expr)
    (hp : Parse s = Except.ok e)
    (hleg : legalB e = true)
    (hvars : ∀ v ∈ varList e, v = "z") :
    parseAndCheck s = Except.ok e ∧
    ∀ F env, ∃ v, evalExpr F e env = some v := by
  obtain ⟨vs, hc, hm, hn⟩ := check_ok e hleg []
  have hall : ∀ x ∈ vs, x = "z" := by
    intro x hx
    rcases (hm x).1 hx with h0 | h0
    · exact absurd h0 (List.not_mem_nil x)
    · exact hvars x h0
  have hnd : vs.Nodup := hn List.nodup_nil
  constructor
  · rw [parseAndCheck_of_ok s e vs hp hc]
    rw [if_neg (nodup_all_z_length vs hall hnd)]
    rw [find_ne_z_none vs hall]
  · intro F env
    exact eval_ok e [] vs hc F env

/-- Witness for C2 at the repository's default expression. -/
theorem C2_valid_total_w :
    parseAndCheck ("1/(1+(z*z))") = Except.ok
      (Expr.binary '/' (Expr.lit (cvInt 1 0))
        (Expr.binary '+' (Expr.lit (cvInt 1 0))
          (Expr.binary '*' (Expr.var ("z")) (Expr.var ("z"))))) ∧
    ∃ v, evalExpr trivialFns
      (Expr.binary '/' (Expr.lit (cvInt 1 0))
        (Expr.binary '+' (Expr.lit (cvInt 1 0))
          (Expr.binary '*' (Expr.var ("z")) (Expr.var ("z"))))) [] = some v := by
  have h := C2_valid_total ("1/(1+(z*z))")
    (Expr.binary '/' (Expr.lit (cvInt 1 0))
      (Expr.binary '+' (Expr.lit (cvInt 1 0))
        (Expr.binary '*' (Expr.var ("z")) (Expr.var ("z")))))
    rfl rfl (by decide)
  exact ⟨h.1, h.2 trivialFns []⟩

/-- C3: the parser implements left-associative precedence climbing with `*`
and `/` binding tighter than `+` and `-`: the parse of `1+2*3` groups as
`1+(2*3)` and evaluates to 7 under any variable binding and any function
interpretation, the parse of `(1+2)*3` evaluates to 9, and the parse of
`8/4/2` groups left-to-right as `(8/4)/2` and evaluates to 1, not 4. -/
theorem C3_precedence_assoc :
    Parse ("1+2*3") = Except.ok
      (Expr.binary '+' (Expr.lit (cvInt 1 0))
        (Expr.binary '*' (Expr.lit (cvInt 2 0)) (Expr.lit (cvInt 3 0)))) ∧
    (∀ F env, evalExpr F
      (Expr.binary '+' (Expr.lit (cvInt 1 0))
        (Expr.binary '*' (Expr.lit (cvInt 2 0)) (Expr.lit (cvInt 3 0)))) env =
      some (cvInt 7 0)) ∧
    Parse ("(1+2)*3") = Except.ok
      (Expr.binary '*' (Expr.binary '+' (Expr.lit (cvInt 1 0)) (Expr.lit (cvInt 2 0)))
        (Expr.lit (cvInt 3 0))) ∧
    (∀ F env, evalExpr F
      (Expr.binary '*' (Expr.binary '+' (Expr.lit (cvInt 1 0)) (Expr.lit (cvInt 2 0)))
        (Expr.lit (cvInt 3 0))) env = some (cvInt 9 0)) ∧
    Parse ("8/4/2") = Except.ok
      (Expr.binary '/' (Expr.binary '/' (Expr.lit (cvInt 8 0)) (Expr.lit (cvInt 4 0)))
        (Expr.lit (cvInt 2 0))) ∧
    (∀ F env, evalExpr F
      (Expr.binary '/' (Expr.binary '/' (Expr.lit (cvInt 8 0)) (Expr.lit (cvInt 4 0)))
        (Expr.lit (cvInt 2 0))) env = some (cvInt 1 0)) ∧
    cvInt 1 0 ≠ cvInt 4 0 :=
  ⟨rfl, fun _ _ => rfl, rfl, fun _ _ => rfl, rfl, fun _ _ => rfl, by decide⟩

/-- C4: the parsed and validated default expression `1/(1+(z*z))` evaluates at
`z = 0` to exactly 1 and at `z = i` to an infinity (division of the nonzero
numerator 1 by the exact zero `1 + i*i` produces a result of infinite
magnitude, not an error), under every function-library interpretation. -/
theorem C4_worked_example :
    ∃ e, parseAndCheck ("1/(1+(z*z))") = Except.ok e ∧
      (∀ F, evalExpr F e [(("z"), cvInt 0 0)] = some (cvInt 1 0)) ∧
      (∀ F, evalExpr F e [(("z"), cvInt 0 1)] = some CV.inf) :=
  ⟨Expr.binary '/' (Expr.lit (cvInt 1 0))
      (Expr.binary '+' (Expr.lit (cvInt 1 0))
        (Expr.binary '*' (Expr.var ("z")) (Expr.var ("z")))),
   rfl, fun _ => rfl, fun _ => rfl⟩

/-- C5: after a successful parse and validation walk, the driver accepts the
expression iff the collected variable set is empty or exactly the name `z`:
more than one distinct name yields the too-many-variables error (the parse of
`z+w` fails that way), and a single name different from `z` yields the
undefined-variable error naming it (the parse of `w` fails naming `w`). -/
theorem C5_variable_rules (s : String) (e : Expr) (vars : List String)
    (hp : Parse s = Except.ok e) (hc : Check e [] = Except.ok vars) :
    (1 < vars.length → parseAndCheck s = Except.error Err.tooManyVariables) ∧
    (∀ v, vars = [v] → v ≠ "z" → parseAndCheck s = Except.error (Err.undefinedVariable v)) ∧
    (vars = [] ∨ vars = [("z")] → parseAndCheck s = Except.ok e) ∧
    parseAndCheck ("z+w") = Except.error Err.tooManyVariables ∧
    parseAndCheck ("w") = Except.error (Err.undefinedVariable ("w")) := by
  rw [parseAndCheck_of_ok s e vars hp hc]
  refine ⟨?_, ?_, ?_, rfl, rfl⟩
  · intro h
    rw [if_pos h]
  · rintro v rfl hv
    rw [if_neg (by simp)]
    have hb : (v != ("z" : String)) = true := bne_iff_ne.mpr hv
    simp [List.find?, hb]
  · rintro (rfl | rfl) <;> rfl

/-- Witness for C5 at the concrete rejected inputs. -/
theorem C5_variable_rules_w :
    parseAndCheck ("z+w") = Except.error Err.tooManyVariables ∧
    parseAndCheck ("w") = Except.error (Err.undefinedVariable ("w")) := by
  have h1 := C5_variable_rules ("z+w") (Expr.binary '+' (Expr.var ("z")) (Expr.var ("w")))
    [("z"), ("w")] rfl rfl
  have h2 := C5_variable_rules ("w") (Expr.var ("w")) [("w")] rfl rfl
  exact ⟨h1.1 (by decide), h2.2.1 ("w") rfl (by decide)⟩

/-- Counterexample to C6 as stated: the syntax errors carry no position —
the unbalanced parenthesis of `(1+2` (opening parenthesis at offset 0) and of
`((((1+2` (four opening parentheses, the unmatched ones at different offsets)
produce the very same error value, built only from the expected token `)` and
the description of the actual token, so the error cannot be describing the
position of the problem. -/
theorem C6_position_cex :
    Parse ("(1+2") = Except.error (ParseErr.gotWantRParen ("end of file")) ∧
    Parse ("((((1+2") = Except.error (ParseErr.gotWantRParen ("end of file")) :=
  ⟨rfl, rfl⟩

/-- C6 (amended): any grammar violation aborts the parse immediately with a
structured syntax error — never a partial AST, never an uncontrolled abort —
describing the actual token encountered and, for a missing closing
parenthesis, the expected token (but not its position): `Parse "(1+2"` fails
with the got-end-of-file-want-right-parenthesis error, and `Parse "1 2"`
fails with the unexpected-token error for the trailing `2`. -/
theorem C6_syntax_errors :
    Parse ("(1+2") = Except.error (ParseErr.gotWantRParen ("end of file")) ∧
    Parse ("1 2") = Except.error (ParseErr.unexpectedTok ("number 2")) :=
  ⟨rfl, rfl⟩

/-- C7: parsing the one-character source `z` yields precisely the
variable-reference node, and evaluating it in an environment binding `z` to
`3+4i` returns exactly `3+4i` — evaluation of a variable node is exactly
environment lookup. -/
theorem C7_roundtrip :
    Parse ("z") = Except.ok (Expr.var ("z")) ∧
    ∀ F, evalExpr F (Expr.var ("z")) [(("z"), cvInt 3 4)] = some (cvInt 3 4) :=
  ⟨rfl, fun _ => rfl⟩

/-- C8: `parseAndCheck` returns the empty-expression error exactly when the
source string is empty (the check precedes parsing, and no other code path
produces that error kind). -/
theorem C8_empty_iff (s : String) :
    parseAndCheck s = Except.error Err.emptyExpression ↔ s = "" := by
  constructor
  · intro h
    by_contra hs
    simp only [parseAndCheck, if_neg hs] at h
    split at h
    · simp at h
    · split at h
      · simp at h
      · split at h
        · simp at h
        · split at h
          · simp at h
          · simp at h
  · rintro rfl
    rfl

/-- Witness for C8 at the empty string. -/
theorem C8_empty_iff_w : parseAndCheck ("") = Except.error Err.emptyExpression :=
  (C8_empty_iff ("")).mpr rfl

/-- C9: evaluating a variable node whose name is absent from the environment
does not fail: it returns the zero complex value `0+0i`, the default of a Go
map read at a missing key. -/
theorem C9_missing_var_zero (env : List (String × CV)) (v : String)
    (h : env.find? (fun p => p.1 == v) = none) (F : FnImpl) :
    evalExpr F (Expr.var v) env = some (CV.fin (QC.ofNat 0) (QC.ofNat 0)) := by
  simp [evalExpr, lookupEnv, h]

/-- Witness for C9: looking up `w` in an environment binding only `z`. -/
theorem C9_missing_var_zero_w :
    evalExpr trivialFns (Expr.var ("w")) [(("z"), cvInt 5 6)] =
      some (CV.fin (QC.ofNat 0) (QC.ofNat 0)) :=
  C9_missing_var_zero [(("z"), cvInt 5 6)] ("w") rfl trivialFns

/-- C10: numeric literals are converted with complex bit size 64, i.e. at
float32 component precision: the literal `0.1` is stored as
13421773/134217728 = 13421773·2⁻²⁷, the float32 nearest to 1/10, which is
neither 1/10 itself nor the float64 nearest 3602879701896397·2⁻⁵⁵; and a
literal whose conversion fails (`1e39` overflows float32, though it fits in
float64) aborts the parse with an error rather than producing a node. -/
theorem C10_literal_float32 :
    Parse ("0.1") = Except.ok (Expr.lit (CV.fin (qnorm 13421773 134217728) (QC.ofNat 0))) ∧
    parseComplex64 ("0.1") = some (qnorm 13421773 134217728) ∧
    roundF32 (qnorm 1 10) = some (qnorm 13421773 134217728) ∧
    roundF64 (qnorm 1 10) = some (qnorm 3602879701896397 36028797018963968) ∧
    qnorm 13421773 134217728 ≠ qnorm 3602879701896397 36028797018963968 ∧
    qnorm 13421773 134217728 ≠ qnorm 1 10 ∧
    Parse ("1e39") = Except.error (ParseErr.litError ("1e39")) :=
  ⟨rfl, rfl, rfl, by decide, by decide, by decide, rfl⟩
